import Mathlib

/-!
Shallow embedding of the command-execution engine of the `rust-redis-server`
repository (`src/main.rs`), together with theorems settling the frozen claims
about it.

Modelling conventions, fixed once here:

* `Instant` is modelled as a `Nat` counting nanoseconds of a monotonic clock;
  `Duration` values compared against it are `Nat` nanoseconds, and
  `Duration::from_millis ms` becomes `ms * 1000000`.
* The `HashMap<String, Entry>` keyspace is modelled as the function
  `String → Option Entry`; `insert`, `remove` and `entry().or_insert` become
  the pointwise operations `dbInsert`, `dbRemove` and an explicit match.
* Rust `String` values are Lean `String`s; `str::len` (a UTF-8 byte count)
  is `utf8Len`.
* A Rust panic (reachable in `i64::clamp` when `min > max`, and in
  `Duration::from_secs_f64` on a negative or non-finite argument) is
  modelled by `Option`, with `none` standing for the panic.
* `f64` values produced by parsing the BLPOP timeout are modelled by `F64`:
  an exact rational for finite literals plus `inf`/`negInf`/`nan`.
  IEEE rounding of decimal literals is abstracted away (values are kept as
  exact rationals); the only comparisons the engine performs on them are
  against zero, where rounding plays no role.
-/

/-- Mirrors `enum RedisValue { String(String), List(Vec<String>) }`. -/
inductive RedisValue where
  | string (s : String)
  | list (l : List String)
deriving DecidableEq

/-- Mirrors `struct Entry { value, created_at: Instant, expires_in: Option<Duration> }`.
`created_at` is a monotonic-clock nanosecond count, `expires_in` a nanosecond
duration. -/
structure Entry where
  value : RedisValue
  created_at : Nat
  expires_in : Option Nat
deriving DecidableEq

/-- The keyspace `HashMap<String, Entry>`, as a function. -/
abbrev Db := String → Option Entry

/-- The empty keyspace (`HashMap::new()`). -/
def emptyDb : Db := fun _ => none

/-- `HashMap::insert`. -/
def dbInsert (db : Db) (k : String) (e : Entry) : Db :=
  fun k2 => if k2 = k then some e else db k2

/-- `HashMap::remove`. -/
def dbRemove (db : Db) (k : String) : Db :=
  fun k2 => if k2 = k then none else db k2

/-- Rust `str::len()`: the UTF-8 byte length of a string. -/
def utf8Len (s : String) : Nat :=
  s.data.foldl (fun n c => n + c.utf8Size) 0

/-- RESP bulk string frame, as built by `format!("${}\r\n{}\r\n", s.len(), s)`. -/
def bulkString (s : String) : String :=
  "$" ++ toString (utf8Len s) ++ "\r\n" ++ s ++ "\r\n"

/-- RESP array frame of bulk strings, as built by the `*N` header followed by
one bulk string per element. -/
def encodeArray (els : List String) : String :=
  "*" ++ toString els.length ++ "\r\n" ++ String.join (els.map bulkString)

/-- The exact error frame written on every type mismatch. -/
def wrongTypeReply : String :=
  "-WRONGTYPE Operation against a key holding the wrong kind of value\r\n"

/-- `Duration::from_millis`, in nanoseconds. -/
def durationFromMillis (ms : Nat) : Nat := ms * 1000000

/-- Rust `i64::clamp(self, min, max)`: panics (here `none`) when `min > max`,
otherwise saturates `x` into `[min, max]`. -/
def clampI64 (x lo hi : Int) : Option Int :=
  if lo ≤ hi then some (if x < lo then lo else if x > hi then hi else x) else none

/-- The finite/inf/nan shape of an `f64` obtained from parsing (rounding of
finite decimal literals is abstracted to the exact rational). -/
inductive F64 where
  | finite (q : Rat)
  | inf
  | negInf
  | nan
deriving DecidableEq

/-- IEEE negation of a parsed `f64`. -/
def F64.neg : F64 → F64
  | .finite q => .finite (-q)
  | .inf => .negInf
  | .negInf => .inf
  | .nan => .nan

/-- The comparison `timeout > 0.0` on an `f64`. -/
def F64.gtZero : F64 → Bool
  | .finite q => decide (0 < q)
  | .inf => true
  | .negInf => false
  | .nan => false

/-- `Duration::from_secs_f64`: panics (`none`) on a negative, NaN, infinite or
out-of-range argument; otherwise the duration, kept in rational seconds. -/
def durationFromSecsF64 : F64 → Option Rat
  | .finite q => if 0 ≤ q ∧ q < 2 ^ 64 then some q else none
  | _ => none

/-- Mirrors `enum Command`. `Lrange` bounds are `i64` (their parser enforces
the range), `Lpop.count` a `usize`, `Blpop.timeout` an `f64`. -/
inductive Command where
  | ping
  | echo (content : String)
  | set (key value : String) (px : Option Nat)
  | get (key : String)
  | rpush (key : String) (values : List String)
  | lpush (key : String) (values : List String)
  | lrange (key : String) (start stop : Int)
  | llen (key : String)
  | lpop (key : String) (count : Option Nat)
  | blpop (keys : List String) (timeout : F64)
deriving DecidableEq

/-- The `Command::Set` arm: unconditional insert of a scalar entry, expiry
`px.map(Duration::from_millis)`, reply `+OK`. -/
def setExec (db : Db) (key value : String) (px : Option Nat) (now : Nat) :
    String × Db :=
  ("+OK\r\n",
   dbInsert db key ⟨.string value, now, px.map durationFromMillis⟩)

/-- The `Command::Get` arm: lazy expiry (`created_at.elapsed() > duration`,
with `elapsed` saturating at zero like `Instant` subtraction), then the
type-directed reply. -/
def getExec (db : Db) (key : String) (now : Nat) : String × Db :=
  let is_expired : Bool :=
    match db key with
    | some entry =>
      match entry.expires_in with
      | some duration => decide (now - entry.created_at > duration)
      | none => false
    | none => false
  let db1 := if is_expired then dbRemove db key else db
  match db1 key with
  | some entry =>
    match entry.value with
    | .string s => (bulkString s, db1)
    | .list _ => (wrongTypeReply, db1)
  | none => ("$-1\r\n", db1)

/-- The `Command::Rpush` arm: `entry().or_insert` of a fresh no-expiry empty
list, then - if the entry is a list - push every value at the tail, reply the
new length and `notify_all` (the returned `Bool`); otherwise WRONGTYPE with no
mutation and no notification. -/
def rpushExec (db : Db) (key : String) (values : List String) (now : Nat) :
    String × Db × Bool :=
  match db key with
  | some e =>
    match e.value with
    | .list l =>
      let nl := l ++ values
      (":" ++ toString nl.length ++ "\r\n",
       dbInsert db key ⟨.list nl, e.created_at, e.expires_in⟩, true)
    | .string _ => (wrongTypeReply, db, false)
  | none =>
    let nl := ([] : List String) ++ values
    (":" ++ toString nl.length ++ "\r\n",
     dbInsert db key ⟨.list nl, now, none⟩, true)

/-- The `Command::Lpush` arm: like `rpushExec` but each value is inserted at
position 0 in argument order (`list.insert(0, val)` per loop iteration,
mirrored by the fold). -/
def lpushExec (db : Db) (key : String) (values : List String) (now : Nat) :
    String × Db × Bool :=
  match db key with
  | some e =>
    match e.value with
    | .list l =>
      let nl := values.foldl (fun acc v => v :: acc) l
      (":" ++ toString nl.length ++ "\r\n",
       dbInsert db key ⟨.list nl, e.created_at, e.expires_in⟩, true)
    | .string _ => (wrongTypeReply, db, false)
  | none =>
    let nl := values.foldl (fun acc v => v :: acc) ([] : List String)
    (":" ++ toString nl.length ++ "\r\n",
     dbInsert db key ⟨.list nl, now, none⟩, true)

/-- The `Command::Lrange` arm. `none` models the Rust panic: with `len == 0`
the source evaluates `stop.clamp(0, len - 1) = clamp(0, -1)`, and
`i64::clamp` panics when `min > max`. The slice `&list[s..=e]` is
`(l.drop s).take (e + 1 - s)`. Read-only: the keyspace is untouched. -/
def lrangeExec (db : Db) (key : String) (start stop : Int) : Option String :=
  match db key with
  | some entry =>
    match entry.value with
    | .list l =>
      let len : Int := l.length
      match clampI64 (if start < 0 then len + start else start) 0 len with
      | none => none
      | some si =>
        match clampI64 (if stop < 0 then len + stop else stop) 0 (len - 1) with
        | none => none
        | some ei =>
          let start_idx := si.toNat
          let stop_idx := ei.toNat
          if start_idx ≥ l.length ∨ start_idx > stop_idx then some "*0\r\n"
          else some (encodeArray ((l.drop start_idx).take (stop_idx + 1 - start_idx)))
    | .string _ => some wrongTypeReply
  | none => some "*0\r\n"

/-- The `Command::Llen` arm (read-only). -/
def llenExec (db : Db) (key : String) : String :=
  match db key with
  | some entry =>
    match entry.value with
    | .list l => ":" ++ toString l.length ++ "\r\n"
    | .string _ => wrongTypeReply
  | none => ":0\r\n"

/-- The `Command::Lpop` arm. -/
def lpopExec (db : Db) (key : String) (count : Option Nat) : String × Db :=
  match db key with
  | some e =>
    match e.value with
    | .list l =>
      match count with
      | none =>
        match l with
        | [] => ("$-1\r\n", db)
        | v :: tl =>
          (bulkString v, dbInsert db key ⟨.list tl, e.created_at, e.expires_in⟩)
      | some num =>
        let take_count := min num l.length
        if take_count = 0 then ("*-1\r\n", db)
        else (encodeArray (l.take take_count),
              dbInsert db key ⟨.list (l.drop take_count), e.created_at, e.expires_in⟩)
    | .string _ => (wrongTypeReply, db)
  | none => ("$-1\r\n", db)

/-- The scan at the top of the `Command::Blpop` loop: walk `keys` in order and
pop the head of the first key that currently holds a non-empty list; keys that
are absent, hold a scalar, or hold an empty list are skipped. -/
def blpopScan (db : Db) : List String → Option (String × String × Db)
  | [] => none
  | k :: ks =>
    match db k with
    | some e =>
      match e.value with
      | .list (v :: tl) =>
        some (k, v, dbInsert db k ⟨.list tl, e.created_at, e.expires_in⟩)
      | .list [] => blpopScan db ks
      | .string _ => blpopScan db ks
    | none => blpopScan db ks

/-- The Bool-valued guard the scan applies to one key (used to phrase
"the earlier keys hold no non-empty list"). -/
def holdsNonEmptyList (db : Db) (k : String) : Bool :=
  match db k with
  | some e =>
    match e.value with
    | .list (_ :: _) => true
    | _ => false
  | none => false

/-- The `*2` success reply `[winning_key, popped_value]` of BLPOP. -/
def blpopReply (k v : String) : String :=
  "*2\r\n" ++ bulkString k ++ bulkString v

/-- Outcome of one iteration of the BLPOP scan/wait loop. `popped` and
`timedOut` return from the command; `wait` blocks on the condition variable
and re-runs the loop. -/
inductive BlpopStep where
  | popped (reply : String) (db2 : Db)
  | timedOut (reply : String)
  | wait

/-- Whether an iteration ended in the timed-out branch. -/
def BlpopStep.isTimedOut : BlpopStep → Bool
  | .timedOut _ => true
  | _ => false

/-- One iteration of the `Command::Blpop` loop, given the already-computed
`timeout_duration` (rational seconds) and the elapsed time since the command
started: scan first; otherwise the timed-out branch fires exactly when
`timeout > 0.0 && elapsed >= timeout_duration`; otherwise wait. -/
def blpopIter (db : Db) (keys : List String) (timeout : F64)
    (timeoutDuration elapsed : Rat) : BlpopStep :=
  match blpopScan db keys with
  | some (k, v, db2) => .popped (blpopReply k v) db2
  | none =>
    if timeout.gtZero && decide (timeoutDuration ≤ elapsed) then .timedOut "*-1\r\n"
    else .wait

/-- Result of executing one parsed command while holding the keyspace lock:
either a finished reply (with the possibly mutated keyspace and whether
`notify_all` ran), or a BLPOP that found nothing and is about to wait. -/
inductive Outcome where
  | done (reply : String) (db2 : Db) (notified : Bool)
  | blocked (db2 : Db)

/-- The keyspace after the lock episode. -/
def Outcome.db : Outcome → Db
  | .done _ d _ => d
  | .blocked d => d

/-- The `match command` dispatch of `handle_connection`, for a single lock
episode. `now` is the monotonic reading taken inside the arm, `elapsed` the
time since a BLPOP started (0 on its first iteration). `none` models a panic. -/
def execCommand (c : Command) (db : Db) (now : Nat) (elapsed : Rat) :
    Option Outcome :=
  match c with
  | .ping => some (.done "+PONG\r\n" db false)
  | .echo content => some (.done (bulkString content) db false)
  | .set k v px =>
    let r := setExec db k v px now
    some (.done r.1 r.2 false)
  | .get k =>
    let r := getExec db k now
    some (.done r.1 r.2 false)
  | .rpush k vs =>
    let r := rpushExec db k vs now
    some (.done r.1 r.2.1 r.2.2)
  | .lpush k vs =>
    let r := lpushExec db k vs now
    some (.done r.1 r.2.1 r.2.2)
  | .lrange k a b => (lrangeExec db k a b).map (fun rep => .done rep db false)
  | .llen k => some (.done (llenExec db k) db false)
  | .lpop k cnt =>
    let r := lpopExec db k cnt
    some (.done r.1 r.2 false)
  | .blpop keys timeout =>
    match durationFromSecsF64 timeout with
    | none => none
    | some dur =>
      match blpopIter db keys timeout dur elapsed with
      | .popped rep db2 => some (.done rep db2 false)
      | .timedOut rep => some (.done rep db false)
      | .wait => some (.blocked db)

/-!
The parser `parse_message`, translated line by line. The Rust source splits
the raw input on `"\r\n"`, checks that the first line starts with `*`, reads
the command name at index 2 (ASCII-uppercased), and then reads arguments at
fixed even indices. All recursion below is structural so that every parse can
be evaluated by the kernel.
-/

/-- Rust `input.split("\r\n")` on the decoded character list: split at every
non-overlapping, leftmost-first occurrence of CR LF, keeping empty pieces. -/
def splitCRLF : List Char → List String
  | [] => [""]
  | '\r' :: '\n' :: rest => "" :: splitCRLF rest
  | c :: rest =>
    match splitCRLF rest with
    | [] => [String.mk [c]]
    | s :: ss => (String.mk [c] ++ s) :: ss

/-- The line list the parser works on. -/
def messageLines (input : String) : List String := splitCRLF input.data

/-- Rust `lines[0].starts_with('*')`; `splitCRLF` never returns an empty
list, so indexing cannot fail and the default head is never used. -/
def startsWithStar (s : String) : Bool :=
  match s.data with
  | c :: _ => c = '*'
  | [] => false

/-- ASCII uppercasing, the effect of Rust `to_uppercase` on the ASCII command
names and the `PX` flag this parser compares against. -/
def toUpperM (s : String) : String := String.mk (s.data.map Char.toUpper)

/-- Rust `s.is_empty()` for the BLPOP line filter. -/
def isEmptyLine (s : String) : Bool := s.data.isEmpty

/-- Value of a digit run (used only on all-digit lists). -/
def natDigits (ds : List Char) : Nat :=
  ds.foldl (fun a c => a * 10 + (c.toNat - 48)) 0

/-- A non-empty all-digit run, or failure. -/
def digitsToNat : List Char → Option Nat
  | [] => none
  | ds => if ds.all Char.isDigit then some (natDigits ds) else none

/-- Rust `str::parse::<u64>()`: optional `+` sign, then a non-empty digit run
whose value fits in 64 bits. -/
def parseU64 (s : String) : Option Nat :=
  let body := match s.data with
    | '+' :: rest => rest
    | cs => cs
  match digitsToNat body with
  | some n => if n < 2 ^ 64 then some n else none
  | none => none

/-- Rust `str::parse::<usize>()` (64-bit target). -/
def parseUsize (s : String) : Option Nat := parseU64 s

/-- Rust `str::parse::<i64>()`: optional sign, non-empty digit run, value in
the `i64` range. -/
def parseI64 (s : String) : Option Int :=
  match s.data with
  | '-' :: rest =>
    match digitsToNat rest with
    | some n => if n ≤ 2 ^ 63 then some (-(n : Int)) else none
    | none => none
  | '+' :: rest =>
    match digitsToNat rest with
    | some n => if n < 2 ^ 63 then some (n : Int) else none
    | none => none
  | cs =>
    match digitsToNat cs with
    | some n => if n < 2 ^ 63 then some (n : Int) else none
    | none => none

/-- Exponent suffix of an `f64` literal: empty, or `e`/`E`, optional sign,
non-empty digit run. -/
def parseF64Exp : List Char → Option Int
  | [] => some 0
  | c :: rest =>
    if c = 'e' ∨ c = 'E' then
      match rest with
      | '+' :: ds => (digitsToNat ds).map (fun n => (n : Int))
      | '-' :: ds => (digitsToNat ds).map (fun n => -(n : Int))
      | ds => (digitsToNat ds).map (fun n => (n : Int))
    else none

/-- Exact rational value of a finite decimal literal
`intpart . fracpart e exp`. -/
def ratOfDecimal (ip : Nat) (fp : Nat) (fplen : Nat) (e : Int) : Rat :=
  ((ip : Rat) + (fp : Rat) / ((10 : Rat) ^ fplen)) * (10 : Rat) ^ e

/-- Unsigned number body of the Rust `f64` grammar:
`Digit+ ('.' Digit*)? Exp?` or `'.' Digit+ Exp?`. -/
def parseF64Mag (cs : List Char) : Option Rat :=
  let ip := cs.takeWhile Char.isDigit
  let rest1 := cs.drop ip.length
  match rest1 with
  | '.' :: rest2 =>
    let fp := rest2.takeWhile Char.isDigit
    let rest3 := rest2.drop fp.length
    if ip.isEmpty && fp.isEmpty then none
    else (parseF64Exp rest3).map (fun e =>
      ratOfDecimal (natDigits ip) (natDigits fp) fp.length e)
  | rest =>
    if ip.isEmpty then none
    else (parseF64Exp rest).map (fun e => ratOfDecimal (natDigits ip) 0 0 e)

/-- Case-insensitive ASCII word comparison for the special `f64` literals. -/
def lowerEq (cs : List Char) (w : String) : Bool :=
  cs.map Char.toLower = w.data

/-- Unsigned part of `str::parse::<f64>()`: the words `inf`, `infinity`,
`nan` (ASCII case-insensitive) or a finite number body. -/
def parseF64Core (cs : List Char) : Option F64 :=
  if lowerEq cs "inf" ∨ lowerEq cs "infinity" then some .inf
  else if lowerEq cs "nan" then some .nan
  else (parseF64Mag cs).map F64.finite

/-- Rust `str::parse::<f64>()` (finite values kept as exact rationals). -/
def parseF64 (s : String) : Option F64 :=
  match s.data with
  | '+' :: rest => parseF64Core rest
  | '-' :: rest => (parseF64Core rest).map F64.neg
  | cs => parseF64Core cs

/-- The RPUSH/LPUSH value loop reads indices 6, 8, 10, ... until `get` fails,
i.e. every other element of the suffix of the lines from index 6. -/
def everyOther : List String → List String
  | [] => []
  | [v] => [v]
  | v :: _ :: rest => v :: everyOther rest

/-- The `px` computation of the SET branch: `px` is set only when a line
uppercasing to `PX` exists, the line two past it exists, and that line parses
as `u64` - otherwise `px` stays `None`. -/
def setPx (lines : List String) : Option Nat :=
  match lines.findIdx? (fun p => toUpperM p = "PX") with
  | some pos => (lines[pos + 2]?).bind parseU64
  | none => none

/-- The SET branch: key at 4, value at 6 (both mandatory), and the optional
`px`; a failing `PX` value does not abort the command. -/
def parseSet (lines : List String) : Option Command :=
  match lines[4]? with
  | none => none
  | some key =>
    match lines[6]? with
    | none => none
    | some value => some (.set key value (setPx lines))

/-- The LRANGE branch: key at 4, then both bounds must parse as `i64`
(`parse().ok()?` - failure aborts the whole parse). -/
def parseLrange (lines : List String) : Option Command :=
  match lines[4]? with
  | none => none
  | some key =>
    match (lines[6]?).bind parseI64 with
    | none => none
    | some start =>
      match (lines[8]?).bind parseI64 with
      | none => none
      | some stop => some (.lrange key start stop)

/-- The BLPOP key loop collects `filtered[i]` for `i = 4, 6, ...` while
`i < filtered.len() - 1` (every such `get` succeeds), i.e. every other
element of the suffix from index 4 with the final timeout element dropped. -/
def blpopKeys (filtered : List String) : List String :=
  everyOther (filtered.drop 4).dropLast

/-- The BLPOP branch on the already-filtered lines: the last line is the
timeout (must parse as `f64`, else the whole parse fails), the keys sit in
between. -/
def parseBlpopFiltered (filtered : List String) : Option Command :=
  match filtered.getLast? with
  | none => none
  | some tstr =>
    match parseF64 tstr with
    | none => none
    | some timeout => some (.blpop (blpopKeys filtered) timeout)

/-- The BLPOP branch: drop empty lines, then parse timeout and keys. -/
def parseBlpop (lines : List String) : Option Command :=
  parseBlpopFiltered (lines.filter (fun s => !isEmptyLine s))

/-- The `match command_name` dispatch of `parse_message`. -/
def parseByName (name : String) (lines : List String) : Option Command :=
  if name = "PING" then some .ping
  else if name = "ECHO" then (lines[4]?).map Command.echo
  else if name = "SET" then parseSet lines
  else if name = "GET" then (lines[4]?).map Command.get
  else if name = "RPUSH" then
    (lines[4]?).map (fun k => Command.rpush k (everyOther (lines.drop 6)))
  else if name = "LPUSH" then
    (lines[4]?).map (fun k => Command.lpush k (everyOther (lines.drop 6)))
  else if name = "LRANGE" then parseLrange lines
  else if name = "LLEN" then (lines[4]?).map Command.llen
  else if name = "LPOP" then
    (lines[4]?).map (fun k => Command.lpop k ((lines[6]?).bind parseUsize))
  else if name = "BLPOP" then parseBlpop lines
  else none

/-- `fn parse_message(input: &str) -> Option<Command>`. -/
def parse_message (input : String) : Option Command :=
  let lines := messageLines input
  if startsWithStar (lines.headD "") then
    match lines[2]? with
    | some raw => parseByName (toUpperM raw) lines
    | none => none
  else none

/-- The per-frame body of `handle_connection`: parse, and if a command came
out execute it (`none` reply when the frame was silently dropped; the
`blocked` outcome also has produced no reply yet). `none` models a panic. -/
def handleInput (input : String) (db : Db) (now : Nat) (elapsed : Rat) :
    Option (Option String × Db) :=
  match parse_message input with
  | none => some (none, db)
  | some c =>
    match execCommand c db now elapsed with
    | none => none
    | some (.done rep db2 _) => some (some rep, db2)
    | some (.blocked db2) => some (none, db2)

/-!
Theorems settling the claims.
-/

/-- Claim C1. The claim says that for LRANGE on a list of length 0 the reply
is the empty array without indexing; the code instead evaluates
`stop.clamp(0, len - 1) = clamp(0, -1)` and `i64::clamp` panics when
`min > max`, so on a key holding the empty list LRANGE panics (modelled
`none`) for every start/stop pair and no reply is produced. The remaining
normalization arithmetic of the claim matches the code for `len > 0`
(established en route to claim C8 by `lrange_full_range`). -/
theorem lrange_on_empty_list_panics (start stop : Int) :
    lrangeExec (dbInsert emptyDb "k" ⟨.list [], 0, none⟩) "k" start stop = none := by
  have hk : dbInsert emptyDb "k" ⟨.list [], 0, none⟩ "k" = some ⟨.list [], 0, none⟩ := rfl
  unfold lrangeExec
  rw [hk]
  simp only [List.length_nil, Nat.cast_zero]
  have h1 : clampI64 (if start < 0 then 0 + start else start) 0 0
      = some (if (if start < 0 then 0 + start else start) < 0 then 0
              else if (if start < 0 then 0 + start else start) > 0 then 0
              else if start < 0 then 0 + start else start) := by
    simp [clampI64]
  rw [h1]
  have h2 : clampI64 (if stop < 0 then 0 + stop else stop) 0 (0 - 1) = none := by
    simp [clampI64]
  rw [h2]

/-- Claim C7. With a timeout of exactly `0.0`, the guard
`timeout > 0.0 && elapsed >= timeout_duration` is false in every iteration of
the BLPOP scan/wait loop, whatever the keyspace, the key list, the computed
duration and the elapsed time: the timed-out branch (the only source of the
`*-1` reply) is unreachable, so the only returning step is a pop. -/
theorem blpop_timeout_zero_never_times_out (db : Db) (keys : List String)
    (dur elapsed : Rat) :
    (blpopIter db keys (.finite 0) dur elapsed).isTimedOut = false := by
  unfold blpopIter
  cases h : blpopScan db keys with
  | some kv => rfl
  | none => simp [F64.gtZero, BlpopStep.isTimedOut]

/-- Claim C10. A push with an empty value list on an absent key still
auto-vivifies the key as an empty list entry with no expiry, replies `:0`
(the list length) and broadcasts the wake-up (`notify_all`, the `true` flag);
and the parser does produce such commands: an RPUSH frame with no value
lines parses to `Rpush` with an empty value vector. -/
theorem empty_push_vivifies (db : Db) (k : String) (now : Nat) (el : Rat)
    (h : db k = none) :
    execCommand (.rpush k []) db now el
      = some (.done ":0\r\n" (dbInsert db k ⟨.list [], now, none⟩) true)
    ∧ execCommand (.lpush k []) db now el
      = some (.done ":0\r\n" (dbInsert db k ⟨.list [], now, none⟩) true)
    ∧ parse_message "*2\r\n$5\r\nRPUSH\r\n$1\r\nk\r\n" = some (.rpush "k" []) := by
  refine ⟨?_, ?_, by decide⟩
  · simp only [execCommand, rpushExec, h]; rfl
  · simp only [execCommand, lpushExec, h]; rfl

/-- Witness for claim C10 at a concrete absent key. -/
theorem empty_push_vivifies_witness :
    execCommand (.rpush "q" []) emptyDb 5 0
      = some (.done ":0\r\n" (dbInsert emptyDb "q" ⟨.list [], 5, none⟩) true) :=
  (empty_push_vivifies emptyDb "q" 5 0 rfl).1

/-- Claim C3 (amended). RPUSH, LPUSH, LRANGE, LLEN and LPOP applied to a key
holding a scalar, and GET applied to a key holding a list (list entries carry
no expiry, claim C9), reply exactly the WRONGTYPE error text and leave the
keyspace untouched (and send no wake-up); the BLPOP scan, however, silently
skips a scalar-holding key instead of replying WRONGTYPE. -/
theorem wrongtype_discipline (db : Db) (k : String) (e : Entry) (now : Nat)
    (el : Rat) (hk : db k = some e) :
    (∀ s, e.value = .string s →
      (∀ vs, execCommand (.rpush k vs) db now el
          = some (.done wrongTypeReply db false))
      ∧ (∀ vs, execCommand (.lpush k vs) db now el
          = some (.done wrongTypeReply db false))
      ∧ (∀ a b, execCommand (.lrange k a b) db now el
          = some (.done wrongTypeReply db false))
      ∧ execCommand (.llen k) db now el = some (.done wrongTypeReply db false)
      ∧ (∀ cnt, execCommand (.lpop k cnt) db now el
          = some (.done wrongTypeReply db false))
      ∧ (∀ ks, blpopScan db (k :: ks) = blpopScan db ks))
    ∧ (∀ l, e.value = .list l → e.expires_in = none →
      execCommand (.get k) db now el = some (.done wrongTypeReply db false)) := by
  constructor
  · intro s hs
    refine ⟨?_, ?_, ?_, ?_, ?_, ?_⟩
    · intro vs; simp [execCommand, rpushExec, hk, hs]
    · intro vs; simp [execCommand, lpushExec, hk, hs]
    · intro a b; simp [execCommand, lrangeExec, hk, hs]
    · simp [execCommand, llenExec, hk, hs]
    · intro cnt; simp [execCommand, lpopExec, hk, hs]
    · intro ks; simp [blpopScan, hk, hs]
  · intro l hl hexp
    simp [execCommand, getExec, hk, hl, hexp]

/-- Counterexample for claim C3 as stated: the BLPOP scan applied to a key
holding a scalar does not produce the WRONGTYPE reply - the key is skipped,
the scan finds nothing, and the command blocks without replying at all. -/
theorem blpop_scan_scalar_skipped :
    blpopScan (dbInsert emptyDb "k" ⟨.string "v", 0, none⟩) ["k"] = none
    ∧ execCommand (.blpop ["k"] (.finite 1))
        (dbInsert emptyDb "k" ⟨.string "v", 0, none⟩) 0 0
      = some (.blocked (dbInsert emptyDb "k" ⟨.string "v", 0, none⟩)) :=
  ⟨rfl, rfl⟩

/-- Witness for claim C3: RPUSH on a concrete scalar-holding key replies
WRONGTYPE and leaves the keyspace unchanged. -/
theorem wrongtype_discipline_witness :
    execCommand (.rpush "k" ["a"]) (dbInsert emptyDb "k" ⟨.string "v", 0, none⟩) 0 0
      = some (.done wrongTypeReply (dbInsert emptyDb "k" ⟨.string "v", 0, none⟩) false) :=
  (((wrongtype_discipline (dbInsert emptyDb "k" ⟨.string "v", 0, none⟩) "k"
      ⟨.string "v", 0, none⟩ 0 0 rfl).1 "v" rfl).1 ["a"])

/-- Claim C5. GET on an entry carrying an expiry deletes the entry and replies
null bulk exactly when `now - created_at` strictly exceeds `expires_in`; when
the horizon is not exceeded, or when no expiry is attached, the stored scalar
is returned unchanged as a bulk string and the keyspace is untouched; and
after an expired read the key is gone, so every later GET replies null bulk
without further change until something writes the key again. -/
theorem get_lazy_expiry (db : Db) (k : String) (e : Entry) (now : Nat)
    (hk : db k = some e) :
    (∀ d, e.expires_in = some d → now - e.created_at > d →
      getExec db k now = ("$-1\r\n", dbRemove db k)
      ∧ ∀ now2, getExec (dbRemove db k) k now2 = ("$-1\r\n", dbRemove db k))
    ∧ (∀ d, e.expires_in = some d → ¬(now - e.created_at > d) →
      ∀ s, e.value = .string s → getExec db k now = (bulkString s, db))
    ∧ (e.expires_in = none → ∀ s, e.value = .string s →
      getExec db k now = (bulkString s, db)) := by
  refine ⟨?_, ?_, ?_⟩
  · intro d hd hgt
    constructor
    · have hrm : dbRemove db k k = none := by simp [dbRemove]
      simp [getExec, hk, hd, hgt, hrm]
    · intro now2
      have hrm : dbRemove db k k = none := by simp [dbRemove]
      simp [getExec, hrm]
  · intro d hd hle s hs
    simp [getExec, hk, hd, hle, hs]
  · intro hd s hs
    simp [getExec, hk, hd, hs]

/-- Witness for claim C5: a concrete expired read deletes the key and replies
null bulk. -/
theorem get_lazy_expiry_witness :
    getExec (dbInsert emptyDb "k" ⟨.string "v", 0, some 3⟩) "k" 10
      = ("$-1\r\n", dbRemove (dbInsert emptyDb "k" ⟨.string "v", 0, some 3⟩) "k") :=
  ((get_lazy_expiry (dbInsert emptyDb "k" ⟨.string "v", 0, some 3⟩) "k"
      ⟨.string "v", 0, some 3⟩ 10 rfl).1 3 rfl (by norm_num)).1

/-- Claim C6 (amended). LPOP without a count: absent key or empty list reply
null bulk with no change, else the head is removed and replied as a bulk
string. LPOP with count `n`: absent key replies null bulk with no change;
on a list, `take = min(n, len)`; `take = 0` replies null array `*-1` with no
change, else the first `take` elements are removed and replied in their
original head-to-tail order. Consequently, when the key held a list and
`n ≥ len`, after `LPOP k n` the key is still present holding the empty list
and LLEN replies 0; an absent key, by contrast, stays absent (yet LLEN still
replies 0, which is where the unamended claim fails). -/
theorem lpop_semantics (db : Db) (k : String) (now : Nat) (el : Rat) :
    (db k = none → ∀ cnt, execCommand (.lpop k cnt) db now el
        = some (.done "$-1\r\n" db false))
    ∧ (∀ e, db k = some e → ∀ l, e.value = .list l →
      (l = [] → execCommand (.lpop k none) db now el
          = some (.done "$-1\r\n" db false))
      ∧ (∀ v tl, l = v :: tl → execCommand (.lpop k none) db now el
          = some (.done (bulkString v)
              (dbInsert db k ⟨.list tl, e.created_at, e.expires_in⟩) false))
      ∧ (∀ n, min n l.length = 0 → execCommand (.lpop k (some n)) db now el
          = some (.done "*-1\r\n" db false))
      ∧ (∀ n, 0 < min n l.length → execCommand (.lpop k (some n)) db now el
          = some (.done (encodeArray (l.take (min n l.length)))
              (dbInsert db k ⟨.list (l.drop (min n l.length)),
                e.created_at, e.expires_in⟩) false))
      ∧ (∀ n, l.length ≤ n →
          (lpopExec db k (some n)).2 k
              = some ⟨.list [], e.created_at, e.expires_in⟩
          ∧ llenExec (lpopExec db k (some n)).2 k = ":0\r\n")) := by
  constructor
  · intro h cnt; simp [execCommand, lpopExec, h]
  · intro e hk l hl
    refine ⟨?_, ?_, ?_, ?_, ?_⟩
    · intro hnil; simp [execCommand, lpopExec, hk, hl, hnil]
    · intro v tl hcons; simp [execCommand, lpopExec, hk, hl, hcons]
    · intro n hmin; simp [execCommand, lpopExec, hk, hl, hmin]
    · intro n hpos
      have hne : ¬ (min n l.length = 0) := Nat.pos_iff_ne_zero.mp hpos
      simp [execCommand, lpopExec, hk, hl, hne]
    · intro n hle
      have hmin : min n l.length = l.length := Nat.min_eq_right hle
      by_cases hnil : l.length = 0
      · have hmin0 : min n l.length = 0 := by omega
        have hl0 : l = [] := List.length_eq_zero.mp hnil
        have hdb : (lpopExec db k (some n)).2 = db := by
          simp [lpopExec, hk, hl, hmin0]
        rw [hdb, hk]
        have he : e = ⟨.list [], e.created_at, e.expires_in⟩ := by
          cases e; simp_all
        constructor
        · rw [← he]
        · simp only [llenExec, hk, hl, hl0]; rfl
      · have hne : ¬ (min n l.length = 0) := by omega
        have hdb : (lpopExec db k (some n)).2
            = dbInsert db k ⟨.list (l.drop (min n l.length)),
                e.created_at, e.expires_in⟩ := by
          simp [lpopExec, hk, hl, hne]
        have hdrop : l.drop (min n l.length) = [] := by
          rw [hmin]; exact List.drop_length l
        rw [hdb, hdrop]
        have hins : dbInsert db k ⟨.list [], e.created_at, e.expires_in⟩ k
            = some ⟨.list [], e.created_at, e.expires_in⟩ := by simp [dbInsert]
        exact ⟨hins, by simp only [llenExec, hins]; rfl⟩

/-- Counterexample for claim C6 as stated: with `k` absent, `n = 1 ≥ LLEN(k)`
(LLEN replies 0 on an absent key), yet after `LPOP k 1` the key is not
present as an empty list - it is still absent, and the LPOP reply was null
bulk. -/
theorem lpop_count_absent_key_stays_absent :
    lpopExec emptyDb "k" (some 1) = ("$-1\r\n", emptyDb)
    ∧ llenExec emptyDb "k" = ":0\r\n"
    ∧ (lpopExec emptyDb "k" (some 1)).2 "k" = none :=
  ⟨rfl, rfl, rfl⟩

/-- Witness for claim C6: popping with a count larger than the list length
drains the whole list and replies all elements in order. -/
theorem lpop_semantics_witness :
    execCommand (.lpop "k" (some 5))
        (dbInsert emptyDb "k" ⟨.list ["a", "b"], 0, none⟩) 0 0
      = some (.done (encodeArray ["a", "b"])
          (dbInsert (dbInsert emptyDb "k" ⟨.list ["a", "b"], 0, none⟩) "k"
            ⟨.list [], 0, none⟩) false) :=
  ((lpop_semantics (dbInsert emptyDb "k" ⟨.list ["a", "b"], 0, none⟩) "k" 0 0).2
      ⟨.list ["a", "b"], 0, none⟩ rfl ["a", "b"] rfl).2.2.2.1 5 (by decide)

/-- The BLPOP scan walks past any prefix of keys none of which currently
holds a non-empty list. -/
theorem blpopScan_skips_leading (db : Db) (ks1 rest : List String)
    (h : ∀ k2 ∈ ks1, holdsNonEmptyList db k2 = false) :
    blpopScan db (ks1 ++ rest) = blpopScan db rest := by
  induction ks1 with
  | nil => rfl
  | cons a as ih =>
    have ha := h a (List.mem_cons_self a as)
    have hrest : ∀ k2 ∈ as, holdsNonEmptyList db k2 = false :=
      fun k2 hk2 => h k2 (List.mem_cons_of_mem _ hk2)
    rw [List.cons_append]
    cases hda : db a with
    | none => simp only [blpopScan, hda]; exact ih hrest
    | some e =>
      cases hv : e.value with
      | string s => simp only [blpopScan, hda, hv]; exact ih hrest
      | list l =>
        cases l with
        | nil => simp only [blpopScan, hda, hv]; exact ih hrest
        | cons v tl =>
          exfalso
          simp [holdsNonEmptyList, hda, hv] at ha

/-- Claim C4. When the BLPOP scan runs over `keys = ks1 ++ k :: ks2` where no
key of `ks1` holds a non-empty list and `k` holds the non-empty list
`v :: tl`, then `k` - the earliest key with a non-empty list, in argument
order - wins: exactly its head `v` is removed (the entry keeps its tail and
metadata), every other key is left unchanged, and the reply is the `*2`
array `[winning_key, popped_value]`, both encoded as bulk strings. -/
theorem blpop_first_nonempty_key_wins (db : Db) (ks1 ks2 : List String)
    (k v : String) (tl : List String) (e : Entry)
    (hpre : ∀ k2 ∈ ks1, holdsNonEmptyList db k2 = false)
    (hk : db k = some e) (hv : e.value = .list (v :: tl)) :
    blpopScan db (ks1 ++ k :: ks2)
      = some (k, v, dbInsert db k ⟨.list tl, e.created_at, e.expires_in⟩)
    ∧ blpopReply k v = "*2\r\n" ++ bulkString k ++ bulkString v
    ∧ (∀ k2, k2 ≠ k →
        dbInsert db k ⟨.list tl, e.created_at, e.expires_in⟩ k2 = db k2) := by
  refine ⟨?_, rfl, ?_⟩
  · rw [blpopScan_skips_leading db ks1 (k :: ks2) hpre]
    simp only [blpopScan, hk, hv]
  · intro k2 hne
    simp [dbInsert, hne]

/-- Witness for claim C4: a scan over an absent key, then a scalar key, then
a list key pops the head of the list key. -/
theorem blpop_first_nonempty_key_wins_witness :
    blpopScan
        (dbInsert (dbInsert emptyDb "a" ⟨.string "s", 0, none⟩) "b"
          ⟨.list ["x", "y"], 3, none⟩)
        ["z", "a", "b"]
      = some ("b", "x",
          dbInsert (dbInsert (dbInsert emptyDb "a" ⟨.string "s", 0, none⟩) "b"
              ⟨.list ["x", "y"], 3, none⟩) "b"
            ⟨.list ["y"], 3, none⟩) :=
  (blpop_first_nonempty_key_wins
    (dbInsert (dbInsert emptyDb "a" ⟨.string "s", 0, none⟩) "b"
      ⟨.list ["x", "y"], 3, none⟩)
    ["z", "a"] [] "b" "x" ["y"] ⟨.list ["x", "y"], 3, none⟩
    (by decide) rfl rfl).1

/-- The LPUSH loop (`insert(0, val)` per value) reverses the argument order
onto the front of the existing list. -/
theorem foldl_cons_eq_reverse_append (values l : List String) :
    values.foldl (fun acc v => v :: acc) l = values.reverse ++ l := by
  induction values generalizing l with
  | nil => rfl
  | cons v vs ih => simp [List.foldl_cons, ih]

/-- LRANGE with bounds `0, -1` on a key holding a non-empty list replies the
whole list: `s` normalizes and clamps to `0`, `e = len - 1` stays in
`[0, len - 1]`, the emptiness guard fails, and the inclusive slice is the
full list. -/
theorem lrange_full_range (db : Db) (k : String) (e : Entry) (l : List String)
    (hk : db k = some e) (hv : e.value = .list l) (hne : l ≠ []) :
    lrangeExec db k 0 (-1) = some (encodeArray l) := by
  obtain ⟨val, ca, ei⟩ := e
  have hv2 : val = RedisValue.list l := hv
  subst hv2
  have hlen : 0 < l.length := List.length_pos.mpr hne
  have h1 : clampI64 (if (0 : Int) < 0 then (l.length : Int) + 0 else 0) 0
      (l.length : Int) = some 0 := by
    simp [clampI64]
  have h2 : clampI64 (if (-1 : Int) < 0 then (l.length : Int) + -1 else -1) 0
      ((l.length : Int) - 1) = some ((l.length : Int) - 1) := by
    simp only [clampI64, if_pos (by norm_num : (-1 : Int) < 0)]
    rw [if_pos (by omega : (0 : Int) ≤ (l.length : Int) - 1)]
    congr 1
    omega
  simp only [lrangeExec, hk, h1, h2]
  have h3 : ¬ ((Int.toNat 0 ≥ l.length) ∨ Int.toNat 0 > Int.toNat ((l.length : Int) - 1)) := by
    omega
  rw [if_neg h3]
  have h4 : (l.drop (Int.toNat 0)).take (Int.toNat ((l.length : Int) - 1) + 1 - Int.toNat 0)
      = l := by
    have : Int.toNat ((l.length : Int) - 1) = l.length - 1 := by omega
    simp [this]
    omega
  rw [h4]

/-- Claim C8. Starting from an absent key, `RPUSH k v1 .. vn` followed by
`LRANGE k 0 -1` replies the array `[v1, ..., vn]` (RPUSH appends at the tail
in argument order), and `LPUSH k v1 .. vn` followed by `LRANGE k 0 -1`
replies `[vn, ..., v1]` (each value is inserted at position 0 in argument
order). Stated for a non-empty value vector - with zero values the follow-up
LRANGE hits the `len == 0` panic of claim C1. -/
theorem push_lrange_roundtrip (db : Db) (k : String) (values : List String)
    (now : Nat) (hk : db k = none) (hne : values ≠ []) :
    lrangeExec (rpushExec db k values now).2.1 k 0 (-1)
      = some (encodeArray values)
    ∧ lrangeExec (lpushExec db k values now).2.1 k 0 (-1)
      = some (encodeArray values.reverse) := by
  constructor
  · have hdb : (rpushExec db k values now).2.1
        = dbInsert db k ⟨.list values, now, none⟩ := by
      simp [rpushExec, hk]
    rw [hdb]
    exact lrange_full_range _ k ⟨.list values, now, none⟩ values
      (by simp [dbInsert]) rfl hne
  · have hdb : (lpushExec db k values now).2.1
        = dbInsert db k ⟨.list values.reverse, now, none⟩ := by
      simp [lpushExec, hk, foldl_cons_eq_reverse_append]
    rw [hdb]
    exact lrange_full_range _ k ⟨.list values.reverse, now, none⟩ values.reverse
      (by simp [dbInsert]) rfl (by simp [hne])

/-- Witness for claim C8 at a concrete three-element push. -/
theorem push_lrange_roundtrip_witness :
    lrangeExec (rpushExec emptyDb "k" ["a", "b", "c"] 0).2.1 "k" 0 (-1)
      = some (encodeArray ["a", "b", "c"])
    ∧ lrangeExec (lpushExec emptyDb "k" ["a", "b", "c"] 0).2.1 "k" 0 (-1)
      = some (encodeArray ["c", "b", "a"]) :=
  push_lrange_roundtrip emptyDb "k" ["a", "b", "c"] 0 rfl (by decide)

/-- The invariant of claim C9: every list-valued entry of the keyspace
carries no expiry. -/
def listNoExpiry (db : Db) : Prop :=
  ∀ k e l, db k = some e → e.value = .list l → e.expires_in = none

/-- Inserting an entry that satisfies the per-entry condition preserves the
invariant. -/
theorem listNoExpiry_insert (db : Db) (k : String) (e : Entry)
    (h : listNoExpiry db)
    (he : ∀ l, e.value = .list l → e.expires_in = none) :
    listNoExpiry (dbInsert db k e) := by
  intro k2 e2 l2 hk2 hv2
  by_cases hkk : k2 = k
  · rw [dbInsert, if_pos hkk] at hk2
    cases hk2
    exact he l2 hv2
  · rw [dbInsert, if_neg hkk] at hk2
    exact h k2 e2 l2 hk2 hv2

/-- Removing an entry preserves the invariant. -/
theorem listNoExpiry_remove (db : Db) (k : String) (h : listNoExpiry db) :
    listNoExpiry (dbRemove db k) := by
  intro k2 e2 l2 hk2 hv2
  by_cases hkk : k2 = k
  · rw [dbRemove, if_pos hkk] at hk2; cases hk2
  · rw [dbRemove, if_neg hkk] at hk2
    exact h k2 e2 l2 hk2 hv2


/-- The BLPOP scan pop preserves the invariant: the winning entry keeps its
(by the invariant, absent) expiry. -/
theorem listNoExpiry_blpopScan (db : Db) (keys : List String)
    (h : listNoExpiry db) :
    ∀ k v db2, blpopScan db keys = some (k, v, db2) → listNoExpiry db2 := by
  induction keys with
  | nil => intro k v db2 hscan; cases hscan
  | cons a as ih =>
    intro k v db2 hscan
    rw [blpopScan] at hscan
    cases hda : db a with
    | none => rw [hda] at hscan; exact ih k v db2 hscan
    | some e =>
      obtain ⟨val, ca, ei⟩ := e
      rw [hda] at hscan
      cases val with
      | string s => exact ih k v db2 hscan
      | list l =>
        cases l with
        | nil => exact ih k v db2 hscan
        | cons x tl =>
          have hscan2 : some (a, x, dbInsert db a ⟨RedisValue.list tl, ca, ei⟩)
              = some (k, v, db2) := hscan
          simp only [Option.some.injEq, Prod.mk.injEq] at hscan2
          obtain ⟨rfl, rfl, rfl⟩ := hscan2
          refine listNoExpiry_insert db a _ h ?_
          intro l2 _
          exact h a ⟨RedisValue.list (x :: tl), ca, ei⟩ (x :: tl) hda rfl

/-- A BLPOP iteration that pops got its popped state from the scan. -/
theorem blpopIter_popped_of_scan (db : Db) (keys : List String) (timeout : F64)
    (dur el : Rat) (rep : String) (db2 : Db)
    (h : blpopIter db keys timeout dur el = .popped rep db2) :
    ∃ k v, blpopScan db keys = some (k, v, db2) := by
  unfold blpopIter at h
  cases hscan : blpopScan db keys with
  | some kv =>
    obtain ⟨k, v, d⟩ := kv
    rw [hscan] at h
    have h2 : BlpopStep.popped (blpopReply k v) d = .popped rep db2 := h
    injection h2 with h3 h4
    exact ⟨k, v, by rw [h4]⟩
  | none =>
    rw [hscan] at h
    by_cases hg : (timeout.gtZero && decide (dur ≤ el)) = true
    · rw [if_pos hg] at h; cases h
    · rw [if_neg hg] at h; cases h

/-- Claim C9. Every command preserves the invariant that list-valued entries
have no expiry: SET (the only producer of expiries) always stores a scalar,
RPUSH/LPUSH auto-vivification creates list entries with `expires_in: None`
and in-place list mutation keeps the entry metadata, GET only removes
entries, and the read-only commands do not touch the keyspace. Since lazy
expiry only ever fires on an entry whose `expires_in` is set, no list entry
is ever removed by it. -/
theorem list_entries_never_expire (c : Command) (db : Db) (now : Nat)
    (el : Rat) (h : listNoExpiry db) :
    ∀ o, execCommand c db now el = some o → listNoExpiry o.db := by
  cases c with
  | ping => intro o ho; cases ho; exact h
  | echo s => intro o ho; cases ho; exact h
  | set k v px =>
    intro o ho
    cases ho
    refine listNoExpiry_insert db k _ h ?_
    intro l hl
    cases hl
  | get k =>
    intro o ho
    cases ho
    show listNoExpiry (getExec db k now).2
    unfold getExec
    cases hdk : db k with
    | none =>
      simp [hdk]
      exact h
    | some e =>
      obtain ⟨val, ca, ei⟩ := e
      cases ei with
      | none =>
        cases val with
        | string s => simp [hdk]; exact h
        | list l => simp [hdk]; exact h
      | some d =>
        by_cases hx : now - ca > d
        · simp only [hdk, decide_eq_true hx, if_pos]
          have hrm : dbRemove db k k = none := by simp [dbRemove]
          simp only [hrm]
          exact listNoExpiry_remove db k h
        · have hdec : decide (now - ca > d) = false := decide_eq_false hx
          simp only [hdk, hdec, Bool.false_eq_true, if_false]
          cases val with
          | string s => simp [hdk]; exact h
          | list l => simp [hdk]; exact h
  | rpush k vs =>
    intro o ho
    cases ho
    show listNoExpiry (rpushExec db k vs now).2.1
    unfold rpushExec
    cases hdk : db k with
    | none =>
      refine listNoExpiry_insert db k _ h ?_
      intro l2 _; rfl
    | some e =>
      obtain ⟨val, ca, ei⟩ := e
      cases val with
      | string s => exact h
      | list l =>
        refine listNoExpiry_insert db k _ h ?_
        intro l2 _
        exact h k ⟨RedisValue.list l, ca, ei⟩ l hdk rfl
  | lpush k vs =>
    intro o ho
    cases ho
    show listNoExpiry (lpushExec db k vs now).2.1
    unfold lpushExec
    cases hdk : db k with
    | none =>
      refine listNoExpiry_insert db k _ h ?_
      intro l2 _; rfl
    | some e =>
      obtain ⟨val, ca, ei⟩ := e
      cases val with
      | string s => exact h
      | list l =>
        refine listNoExpiry_insert db k _ h ?_
        intro l2 _
        exact h k ⟨RedisValue.list l, ca, ei⟩ l hdk rfl
  | lrange k a b =>
    intro o ho
    simp only [execCommand, Option.map_eq_some'] at ho
    obtain ⟨rep, _, hrep⟩ := ho
    cases hrep
    exact h
  | llen k => intro o ho; cases ho; exact h
  | lpop k cnt =>
    intro o ho
    cases ho
    show listNoExpiry (lpopExec db k cnt).2
    unfold lpopExec
    cases hdk : db k with
    | none => exact h
    | some e =>
      obtain ⟨val, ca, ei⟩ := e
      cases val with
      | string s => exact h
      | list l =>
        cases cnt with
        | none =>
          cases l with
          | nil => exact h
          | cons v tl =>
            refine listNoExpiry_insert db k _ h ?_
            intro l2 _
            exact h k ⟨RedisValue.list (v :: tl), ca, ei⟩ (v :: tl) hdk rfl
        | some n =>
          by_cases hz : min n l.length = 0
          · simp only [if_pos hz]; exact h
          · simp only [if_neg hz]
            refine listNoExpiry_insert db k _ h ?_
            intro l2 _
            exact h k ⟨RedisValue.list l, ca, ei⟩ l hdk rfl
  | blpop keys timeout =>
    intro o ho
    cases hdur : durationFromSecsF64 timeout with
    | none =>
      simp only [execCommand, hdur] at ho
      exact Option.noConfusion ho
    | some dur =>
      simp only [execCommand, hdur] at ho
      cases hiter : blpopIter db keys timeout dur el with
      | popped rep db2 =>
        rw [hiter] at ho
        cases ho
        obtain ⟨k, v, hscan⟩ :=
          blpopIter_popped_of_scan db keys timeout dur el rep db2 hiter
        exact listNoExpiry_blpopScan db keys h k v db2 hscan
      | timedOut rep =>
        rw [hiter] at ho
        cases ho
        exact h
      | wait =>
        rw [hiter] at ho
        cases ho
        exact h

/-- Witness for claim C9: the invariant holds on the empty keyspace and is
preserved by a concrete SET carrying an expiry. -/
theorem list_entries_never_expire_witness :
    listNoExpiry (dbInsert emptyDb "k" ⟨.string "v", 0, some 0⟩) :=
  list_entries_never_expire (.set "k" "v" (some 0)) emptyDb 0 0
    (fun k e l hk _ => absurd hk (by simp [emptyDb]))
    (.done "+OK\r\n" (dbInsert emptyDb "k" ⟨.string "v", 0, some 0⟩) false) rfl

/-- Dispatch reduction: the LRANGE branch. -/
theorem parseByName_lrange (lines : List String) :
    parseByName "LRANGE" lines = parseLrange lines := rfl

/-- Dispatch reduction: the BLPOP branch. -/
theorem parseByName_blpop (lines : List String) :
    parseByName "BLPOP" lines = parseBlpop lines := rfl

/-- Dispatch reduction: the SET branch. -/
theorem parseByName_set (lines : List String) :
    parseByName "SET" lines = parseSet lines := rfl

/-- Claim C2 (amended). For the LRANGE bounds and the BLPOP timeout, a
numeric parse failure makes `parse_message` return `None`, so the frame is
dropped silently: no reply and an unchanged keyspace. For SET, however, a
`PX` argument that fails to parse as `u64` does not drop the command: `px`
merely stays `None`, the SET executes normally, replies `+OK`, and overwrites
the key with a no-expiry scalar. -/
theorem numeric_parse_failure (input : String) (db : Db) (now : Nat)
    (el : Rat) :
    (startsWithStar ((messageLines input).headD "") = true →
      (((messageLines input)[2]?).map toUpperM = some "LRANGE" →
        (((messageLines input)[6]?).bind parseI64 = none
          ∨ ((messageLines input)[8]?).bind parseI64 = none) →
        parse_message input = none
        ∧ handleInput input db now el = some (none, db))
      ∧ (((messageLines input)[2]?).map toUpperM = some "BLPOP" →
        (((messageLines input).filter (fun s => !isEmptyLine s)).getLast?).bind
            parseF64 = none →
        parse_message input = none
        ∧ handleInput input db now el = some (none, db))
      ∧ (∀ key value pos msStr,
        ((messageLines input)[2]?).map toUpperM = some "SET" →
        (messageLines input)[4]? = some key →
        (messageLines input)[6]? = some value →
        (messageLines input).findIdx? (fun p => toUpperM p = "PX") = some pos →
        (messageLines input)[pos + 2]? = some msStr →
        parseU64 msStr = none →
        parse_message input = some (.set key value none)
        ∧ handleInput input db now el
            = some (some "+OK\r\n",
                dbInsert db key ⟨.string value, now, none⟩))) := by
  intro hstar
  refine ⟨?_, ?_, ?_⟩
  · intro hcmd hbad
    obtain ⟨raw, hraw, hup⟩ := Option.map_eq_some'.mp hcmd
    have hpm : parse_message input = none := by
      unfold parse_message
      rw [if_pos hstar, hraw]
      show parseByName (toUpperM raw) (messageLines input) = none
      rw [hup, parseByName_lrange]
      unfold parseLrange
      cases h4 : (messageLines input)[4]? with
      | none => rfl
      | some k =>
        rcases hbad with hbad | hbad
        · rw [hbad]
        · cases h6 : ((messageLines input)[6]?).bind parseI64 with
          | none => rfl
          | some st => rw [hbad]
    exact ⟨hpm, by rw [handleInput, hpm]⟩
  · intro hcmd hbad
    obtain ⟨raw, hraw, hup⟩ := Option.map_eq_some'.mp hcmd
    have hpm : parse_message input = none := by
      unfold parse_message
      rw [if_pos hstar, hraw]
      show parseByName (toUpperM raw) (messageLines input) = none
      rw [hup, parseByName_blpop]
      unfold parseBlpop parseBlpopFiltered
      cases hlast : ((messageLines input).filter (fun s => !isEmptyLine s)).getLast? with
      | none => rfl
      | some t =>
        rw [hlast, Option.some_bind] at hbad
        show (match parseF64 t with
          | none => none
          | some timeout =>
            some (Command.blpop
              (blpopKeys (List.filter (fun s => !isEmptyLine s) (messageLines input)))
              timeout)) = none
        rw [hbad]
    exact ⟨hpm, by rw [handleInput, hpm]⟩
  · intro key value pos msStr hcmd h4 h6 hpos hms hu
    obtain ⟨raw, hraw, hup⟩ := Option.map_eq_some'.mp hcmd
    have hpx : setPx (messageLines input) = none := by
      unfold setPx
      rw [hpos]
      show ((messageLines input)[pos + 2]?).bind parseU64 = none
      rw [hms, Option.some_bind, hu]
    have hpm : parse_message input = some (.set key value none) := by
      unfold parse_message
      rw [if_pos hstar, hraw]
      show parseByName (toUpperM raw) (messageLines input)
        = some (Command.set key value none)
      rw [hup, parseByName_set]
      unfold parseSet
      rw [h4, h6]
      show some (Command.set key value (setPx (messageLines input)))
        = some (Command.set key value none)
      rw [hpx]
    refine ⟨hpm, ?_⟩
    rw [handleInput, hpm]
    rfl

/-- Counterexample for claim C2 as stated: a SET whose `PX` argument is the
non-numeric `abc` is not dropped - it parses to a SET with `px = None`,
executes, replies `+OK`, and the keyspace gains the key. -/
theorem set_bad_px_not_dropped :
    parse_message "*5\r\n$3\r\nSET\r\n$1\r\nk\r\n$1\r\nv\r\n$2\r\nPX\r\n$3\r\nabc\r\n"
      = some (.set "k" "v" none)
    ∧ handleInput "*5\r\n$3\r\nSET\r\n$1\r\nk\r\n$1\r\nv\r\n$2\r\nPX\r\n$3\r\nabc\r\n"
        emptyDb 7 0
      = some (some "+OK\r\n", dbInsert emptyDb "k" ⟨.string "v", 7, none⟩)
    ∧ dbInsert emptyDb "k" ⟨.string "v", 7, none⟩ "k"
      = some ⟨.string "v", 7, none⟩ :=
  ⟨by decide, rfl, rfl⟩

/-- Witness for claim C2: a concrete LRANGE frame whose start bound is the
non-numeric `x` is dropped with no reply and no keyspace change. -/
theorem numeric_parse_failure_witness :
    parse_message "*4\r\n$6\r\nLRANGE\r\n$1\r\nk\r\n$1\r\nx\r\n$1\r\n1\r\n" = none
    ∧ handleInput "*4\r\n$6\r\nLRANGE\r\n$1\r\nk\r\n$1\r\nx\r\n$1\r\n1\r\n"
        emptyDb 0 0 = some (none, emptyDb) :=
  (numeric_parse_failure "*4\r\n$6\r\nLRANGE\r\n$1\r\nk\r\n$1\r\nx\r\n$1\r\n1\r\n"
      emptyDb 0 0 (by decide)).1 (by decide) (Or.inl (by decide))
